import Mathlib

/-!
# Verification of the `quartic` chord model (`src/chord.rs`)

Shallow embedding of the chord/note data model of the `quartic` crate.

Conventions of the embedding:
* Rust `usize` values are modelled as `Nat`.
* Rust `i8` (`PitchOffset`) values are modelled as `Int`; every `i8`
  arithmetic operation in the source is followed by `i8wrap`, which reduces
  the mathematical result modulo `2^8` into `[-128, 127]` (two's-complement
  wrapping semantics).
* Array indexing (`OFFSETS[i]`) is modelled with `List.getD`; the supplied
  indices are always in range (proved below where a claim depends on it).
* `Option::unwrap()` is modelled with `Option.get!`; the claims about
  unreachability of the `None` case are proved separately.
* The note iterator (`NoteIterator::next`, a small state machine with an
  inner `while` loop) is modelled as a step function on the iterator state
  plus a fuel-bounded driver; fuel `12` is enough to fully drain a chord
  (at most 11 yielded notes plus the final `None`), as the theorems show.
-/

/-- A single note without accidentals (`enum NoteClass` in the source). -/
inductive NoteClass where
  | A | B | C | D | E | F | G
deriving DecidableEq, Repr, Inhabited

/-- The total number of `NoteClass` elements (`NOTE_CLASS_COUNT`). -/
def NOTE_CLASS_COUNT : Nat := 7

namespace NoteClass

/-- `NoteClass::from_int`: construct a `NoteClass` from a small integer. -/
def from_int (input : Nat) : Option NoteClass :=
  match input with
  | 0 => some A
  | 1 => some B
  | 2 => some C
  | 3 => some D
  | 4 => some E
  | 5 => some F
  | 6 => some G
  | _ => none

/-- `NoteClass::to_int`: the order set of `NoteClass` for indexing. -/
def to_int : NoteClass → Nat
  | A => 0
  | B => 1
  | C => 2
  | D => 3
  | E => 4
  | F => 5
  | G => 6

/-- The fixed per-letter semitone offset table `OFFSETS` used by
`NoteClass::difference`. -/
def OFFSETS : List Nat := [0, 2, 3, 5, 7, 8, 10]

/-- `NoteClass::difference`: semitonal difference between two base
note classes, computed as `(OFFSETS[other] + 12 - OFFSETS[self]) % 12`. -/
def difference (self other : NoteClass) : Nat :=
  let upper := OFFSETS.getD other.to_int 0 + 12
  let lower := OFFSETS.getD self.to_int 0
  (upper - lower) % 12

end NoteClass

/-- Relative pitch compared to some base note (`enum PitchClass`). -/
inductive PitchClass where
  | N1 | N2 | N3 | N4 | N5 | N6 | N7 | N9 | N11 | N13
deriving DecidableEq, Repr, Inhabited

/-- The total number of `PitchClass` elements (`PITCH_CLASS_COUNT`). -/
def PITCH_CLASS_COUNT : Nat := 10

namespace PitchClass

/-- `PitchClass::from_int`: construct a pitch-class from an index. -/
def from_int (input : Nat) : Option PitchClass :=
  match input with
  | 0 => some N1
  | 1 => some N2
  | 2 => some N3
  | 3 => some N4
  | 4 => some N5
  | 5 => some N6
  | 6 => some N7
  | 7 => some N9
  | 8 => some N11
  | 9 => some N13
  | _ => none

/-- `PitchClass::index`: the storage index of this pitch class. -/
def index : PitchClass → Nat
  | N1  => 0
  | N2  => 1
  | N3  => 2
  | N4  => 3
  | N5  => 4
  | N6  => 5
  | N7  => 6
  | N9  => 7
  | N11 => 8
  | N13 => 9

/-- `PitchClass::to_int`: the letter offset for a natural `PitchClass`
with no alterations. -/
def to_int : PitchClass → Nat
  | N1        => 0
  | N2  | N9  => 1
  | N3        => 2
  | N4  | N11 => 3
  | N5        => 4
  | N6  | N13 => 5
  | N7        => 6

/-- `PitchClass::to_relative_difference`: the number of semitones this
`PitchClass` represents. -/
def to_relative_difference : PitchClass → Nat
  | N1  => 0
  | N2  => 2
  | N3  => 4
  | N4  => 5
  | N5  => 7
  | N6  => 9
  | N7  => 11
  | N9  => 14
  | N11 => 17
  | N13 => 21

end PitchClass

/-- `PitchOffset` (`i8` in the source): an alteration of a base `NoteClass`.
Modelled as `Int`; every source-level `i8` operation is wrapped with
`i8wrap`. -/
def PitchOffset := Int
deriving DecidableEq, Repr, Inhabited

instance : IntCast PitchOffset := ⟨fun n => n⟩
instance : OfNat PitchOffset n := ⟨(n : Int)⟩

/-- Reduce an integer into the `i8` range `[-128, 127]` modulo `2^8`
(two's-complement wrapping, the behaviour of unchecked `i8` arithmetic). -/
def i8wrap (n : Int) : Int := (n + 128) % 256 - 128

/-- A single note which may have applied accidentals (`struct Note`). -/
structure Note where
  root : NoteClass
  offset : Int
deriving DecidableEq, Repr, Inhabited

/-- A relative note within a chord by its intervallic representation
(`type ChordComponent = (PitchClass, PitchOffset)`). -/
def ChordComponent := PitchClass × Int
deriving DecidableEq, Repr, Inhabited

namespace Note

/-- `Note::new`. -/
def new (root : NoteClass) (offset : Int) : Note := ⟨root, offset⟩

/-- `Note::get_relative`: the relative `Note` based on the given
pitch-class.  The two `as i8` casts and the three `i8` arithmetic
operations of the source are each modelled with `i8wrap`. -/
def get_relative (self : Note) (c : ChordComponent) : Note :=
  let root_val := (self.root.to_int + c.1.to_int) % NOTE_CLASS_COUNT
  let root_note := (NoteClass.from_int root_val).get!
  let rel_offset :=
    i8wrap (i8wrap (c.1.to_relative_difference : Int)
            - i8wrap (self.root.difference root_note : Int))
  { root := root_note
    offset := i8wrap (i8wrap (self.offset + c.2) + rel_offset) }

end Note

/-- The intervallic structure of a chord (`struct ChordStructure`):
a fixed table of `PITCH_CLASS_COUNT` slots, one per `PitchClass` ordinal,
each holding either "absent" or a `PitchOffset`. -/
@[ext]
structure ChordStructure where
  slots : Fin PITCH_CLASS_COUNT → Option Int

namespace ChordStructure

/-- `ChordStructure::new`: all slots absent except the unison slot, which
is present with offset 0. -/
def new : ChordStructure :=
  ⟨fun i => if (i : Nat) = PitchClass.N1.index then some 0 else none⟩

/-- `ChordStructure::from_component`: all slots absent except the one named
by the component. -/
def from_component (component : ChordComponent) : ChordStructure :=
  ⟨fun i => if (i : Nat) = component.1.index then some component.2 else none⟩

/-- `ChordStructure::insert`: overwrite the slot named by the component. -/
def insert (self : ChordStructure) (component : ChordComponent) :
    ChordStructure :=
  ⟨fun i => if (i : Nat) = component.1.index then some component.2
            else self.slots i⟩

/-- `ChordStructure::insert_many`: insert each listed component in list
order. -/
def insert_many (self : ChordStructure) (components : List ChordComponent) :
    ChordStructure :=
  components.foldl (fun acc component => acc.insert component) self

/-- `ChordStructure::merge`: overwrite each slot of `self` that is present
in `other` with `other`'s value. -/
def merge (self other : ChordStructure) : ChordStructure :=
  ⟨fun i => if (other.slots i).isSome then other.slots i else self.slots i⟩

end ChordStructure

/-- A single simple chord (`struct Chord`).  The `structure` field of the
source is called `struct` here (`structure` is a Lean keyword). -/
structure Chord where
  slash_root : Option Note
  root : Note
  struct : ChordStructure

namespace Chord

/-- `Chord::new`. -/
def new (root : Note) (struct : ChordStructure) : Chord :=
  ⟨none, root, struct⟩

/-- `Chord::new_slash`. -/
def new_slash (slash_root : Note) (root : Note) (struct : ChordStructure) :
    Chord :=
  ⟨some slash_root, root, struct⟩

end Chord

/-- The state of `NoteIterator` (`enum NoteIteratorState`). -/
inductive NoteIteratorState where
  | slash
  | struct (i : Nat)
  | exhausted
deriving DecidableEq, Repr

/-- The inner `while i < PITCH_CLASS_COUNT` loop of the `Structure` arm of
`NoteIterator::next`: scan for the first present slot at index `≥ i`.
The loop is driven by fuel; callers pass `PITCH_CLASS_COUNT - i`, which is
exactly the number of remaining loop iterations. -/
def scanStructure (c : Chord) : Nat → Nat → Option Note × NoteIteratorState
  | i, fuel + 1 =>
      if h : i < PITCH_CLASS_COUNT then
        match c.struct.slots ⟨i, h⟩ with
        | some offset =>
            (some (c.root.get_relative ((PitchClass.from_int i).get!, offset)),
             .struct (i + 1))
        | none => scanStructure c (i + 1) fuel
      else (none, .exhausted)
  | _, 0 => (none, .exhausted)

/-- One call of `NoteIterator::next`: returns the yielded note (if any)
together with the successor iterator state.  The `continue 'retry` of the
`Slash` arm re-enters the `Structure(0)` arm within the same call. -/
def iterStep (c : Chord) : NoteIteratorState → Option Note × NoteIteratorState
  | .slash =>
      match c.slash_root with
      | some note => (some note, .struct 0)
      | none => scanStructure c 0 PITCH_CLASS_COUNT
  | .struct i => scanStructure c i (PITCH_CLASS_COUNT - i)
  | .exhausted => (none, .exhausted)

/-- Drive the iterator: call `iterStep` until it returns `none` (or the
fuel runs out), collecting the yielded notes and the final state. -/
def drainChord (c : Chord) : Nat → NoteIteratorState → List Note × NoteIteratorState
  | 0, s => ([], s)
  | fuel + 1, s =>
      match iterStep c s with
      | (some note, s') =>
          let rest := drainChord c fuel s'
          (note :: rest.1, rest.2)
      | (none, s') => ([], s')

/-- The full note sequence of `Chord::iter()` (collected).  Fuel 12 covers
the at most 1 + 10 yields plus the terminating `None`. -/
def Chord.notes (c : Chord) : List Note := (drainChord c 12 .slash).1

/-- A polychord (`struct PolyChord`). -/
structure PolyChord where
  upper : Chord
  lower : Chord

/-- `PolyChord::new`. -/
def PolyChord.new (upper lower : Chord) : PolyChord := ⟨upper, lower⟩

/-- One step of `PolyChord::iter()`'s `Chain` iterator: poll the lower
chord's iterator first; once it returns `None`, poll the upper chord's. -/
def polyStep (p : PolyChord) (s : NoteIteratorState × NoteIteratorState) :
    Option Note × (NoteIteratorState × NoteIteratorState) :=
  match iterStep p.lower s.1 with
  | (some note, s1') => (some note, (s1', s.2))
  | (none, s1') =>
      match iterStep p.upper s.2 with
      | (some note, s2') => (some note, (s1', s2'))
      | (none, s2') => (none, (s1', s2'))

/-- Drive the polychord iterator, collecting the yielded notes. -/
def drainPoly (p : PolyChord) :
    Nat → NoteIteratorState × NoteIteratorState → List Note
  | 0, _ => []
  | fuel + 1, s =>
      match polyStep p s with
      | (some note, s') => note :: drainPoly p fuel s'
      | (none, _) => []

/-- The full note sequence of `PolyChord::iter()` (collected).  Fuel 24
covers both halves. -/
def PolyChord.notes (p : PolyChord) : List Note :=
  drainPoly p 24 (.slash, .slash)

/-!
## Spec-side definitions

These two definitions transcribe the specification's wording (not the
source) and are compared against the embedded code by the theorems below.
-/

/-- The note contributed by structure slot `i` of chord `c`, as the spec
describes it: if ordinal `i` (0..9) has a present slot with offset `o`,
the note is `c.root.get_relative((degree, o))` where `degree` is the
pitch class of ordinal `i`; otherwise nothing. -/
def slotNote (c : Chord) (i : Nat) : Option Note :=
  if h : i < PITCH_CLASS_COUNT then
    (c.struct.slots ⟨i, h⟩).map
      (fun offset => c.root.get_relative ((PitchClass.from_int i).get!, offset))
  else none

/-- The pitch of a note as the spec defines it for the ordering and
distance claims: the letter's value in the table
`[A:0, B:2, C:3, D:5, E:7, F:8, G:10]` plus the accidental offset. -/
def pitchValue (n : Note) : Int :=
  (NoteClass.OFFSETS.getD n.root.to_int 0 : Int) + n.offset

/-!
## Helper lemmas: `i8` wrapping and table bounds
-/

lemma i8wrap_eq_self {x : Int} (h1 : -128 ≤ x) (h2 : x ≤ 127) :
    i8wrap x = x := by
  unfold i8wrap; omega

lemma i8wrap_add_left (x y : Int) : i8wrap (i8wrap x + y) = i8wrap (x + y) := by
  unfold i8wrap; omega

lemma i8wrap_add_right (x y : Int) : i8wrap (x + i8wrap y) = i8wrap (x + y) := by
  unfold i8wrap; omega

lemma difference_lt (x y : NoteClass) : x.difference y < 12 := by
  cases x <;> cases y <;> decide

lemma to_relative_difference_le (pc : PitchClass) :
    pc.to_relative_difference ≤ 21 := by
  cases pc <;> decide

lemma noteClass_from_int_isSome {v : Nat} (h : v < NOTE_CLASS_COUNT) :
    (NoteClass.from_int v).isSome = true := by
  simp only [NOTE_CLASS_COUNT] at h
  interval_cases v <;> rfl

lemma noteClass_to_int_from_int {v : Nat} (h : v < NOTE_CLASS_COUNT) :
    (NoteClass.from_int v).get!.to_int = v := by
  simp only [NOTE_CLASS_COUNT] at h
  interval_cases v <;> rfl

lemma pitchClass_from_int_isSome {i : Nat} (h : i < PITCH_CLASS_COUNT) :
    (PitchClass.from_int i).isSome = true := by
  simp only [PITCH_CLASS_COUNT] at h
  interval_cases i <;> rfl

/-- For every pair of letters, the (possibly negative) difference of their
table values is congruent mod 12 to `NoteClass.difference`. -/
lemma offsets_sub_emod (x y : NoteClass) :
    ((NoteClass.OFFSETS.getD y.to_int 0 : Int)
      - (NoteClass.OFFSETS.getD x.to_int 0 : Int)) % 12
    = (x.difference y : Int) % 12 := by
  cases x <;> cases y <;> decide

/-!
## Helper lemmas: characterization of `Note.get_relative`
-/

/-- The letter of the relative note, as computed by the source. -/
lemma get_relative_root (r : Note) (c : ChordComponent) :
    (r.get_relative c).root
      = (NoteClass.from_int
          ((r.root.to_int + c.1.to_int) % NOTE_CLASS_COUNT)).get! := rfl

/-- The letter ordinal of the relative note is the root's ordinal plus the
degree's letter offset, mod 7. -/
lemma get_relative_root_to_int (r : Note) (c : ChordComponent) :
    (r.get_relative c).root.to_int
      = (r.root.to_int + c.1.to_int) % NOTE_CLASS_COUNT := by
  rw [get_relative_root]
  exact noteClass_to_int_from_int
    (Nat.mod_lt _ (by decide : 0 < NOTE_CLASS_COUNT))

/-- The accidental offset of the relative note is the `i8`-wrapped value of
`root.offset + explicit_offset + (ideal - diatonic_gap)`. -/
lemma get_relative_offset (r : Note) (c : ChordComponent) :
    (r.get_relative c).offset
      = i8wrap (r.offset + c.2
          + ((c.1.to_relative_difference : Int)
             - (r.root.difference (r.get_relative c).root : Int))) := by
  have h1 := to_relative_difference_le c.1
  have h2 := difference_lt r.root (r.get_relative c).root
  rw [get_relative_root] at h2
  simp only [Note.get_relative, i8wrap] at h2 ⊢
  omega

/-- When the mathematical value of the offset sum lies in the `i8` range,
the relative note's offset is exactly that value. -/
lemma get_relative_offset_exact (r : Note) (c : ChordComponent)
    (h1 : -128 ≤ r.offset + c.2
            + ((c.1.to_relative_difference : Int)
               - (r.root.difference (r.get_relative c).root : Int)))
    (h2 : r.offset + c.2
            + ((c.1.to_relative_difference : Int)
               - (r.root.difference (r.get_relative c).root : Int)) ≤ 127) :
    (r.get_relative c).offset
      = r.offset + c.2
          + ((c.1.to_relative_difference : Int)
             - (r.root.difference (r.get_relative c).root : Int)) := by
  rw [get_relative_offset, i8wrap_eq_self h1 h2]

/-!
## Claim C1: the `get_relative` formula
-/

/-- **C1** (amended): for every root note and chord component whose
mathematical offset value `root.offset + explicit_offset +
(ideal - diatonic_gap)` lies within the `i8` range `[-128, 127]`,
`Note::get_relative` returns the note whose letter ordinal is
`(root ordinal + degree letter-offset) mod 7` and whose offset is exactly
that value; moreover the five concrete examples of the claim hold.
(The unamended claim, without the range restriction, fails by `i8`
overflow; see the counterexample.) -/
theorem C1_get_relative_formula :
    (∀ (r : Note) (c : ChordComponent),
      -128 ≤ r.offset + c.2 + ((c.1.to_relative_difference : Int)
          - (r.root.difference (r.get_relative c).root : Int)) →
      r.offset + c.2 + ((c.1.to_relative_difference : Int)
          - (r.root.difference (r.get_relative c).root : Int)) ≤ 127 →
      (r.get_relative c).root.to_int
          = (r.root.to_int + c.1.to_int) % NOTE_CLASS_COUNT ∧
      (r.get_relative c).offset
          = r.offset + c.2 + ((c.1.to_relative_difference : Int)
              - (r.root.difference (r.get_relative c).root : Int)))
    ∧ (Note.new .A 0).get_relative (.N5, 0) = Note.new .E 0
    ∧ (Note.new .A 0).get_relative (.N5, -1) = Note.new .E (-1)
    ∧ (Note.new .F (-1)).get_relative (.N2, -2) = Note.new .G (-3)
    ∧ (Note.new .D 0).get_relative (.N3, 0) = Note.new .F 1
    ∧ (Note.new .A 0).get_relative (.N3, 0) = Note.new .C 1 := by
  refine ⟨fun r c h1 h2 =>
      ⟨get_relative_root_to_int r c, get_relative_offset_exact r c h1 h2⟩,
    by decide, by decide, by decide, by decide, by decide⟩

/-- Witness for C1: the amended formula applied at `Note(A,0)` with
component `(N5, 0)`. -/
theorem C1_get_relative_formula_witness :
    ((Note.new NoteClass.A 0).get_relative (PitchClass.N5, 0)).offset
      = (Note.new NoteClass.A 0).offset + 0
        + ((PitchClass.N5.to_relative_difference : Int)
           - ((Note.new NoteClass.A 0).root.difference
               ((Note.new NoteClass.A 0).get_relative
                   (PitchClass.N5, 0)).root : Int)) :=
  (C1_get_relative_formula.1 (Note.new NoteClass.A 0) (PitchClass.N5, 0)
    (by decide) (by decide)).2

/-- Counterexample to C1 as stated: at root `Note(A, 127)` and component
`(N1, 127)` (both representable in `i8`), the mathematical value
`127 + 127 + (0 - 0) = 254` overflows `i8`; the code returns
`Note(A, -2)`, not `Note(A, 254)` as the claim's formula requires. -/
theorem C1_overflow_counterexample :
    (Note.new NoteClass.A 127).get_relative (PitchClass.N1, 127)
        = Note.new NoteClass.A (-2)
    ∧ ¬ ((Note.new NoteClass.A 127).get_relative (PitchClass.N1, 127)
        = Note.new NoteClass.A
            ((127 : Int) + 127
              + ((PitchClass.N1.to_relative_difference : Int)
                 - (NoteClass.A.difference NoteClass.A : Int)))) := by
  decide

/-!
## Claim C3: semitone distance of the relative note
-/

/-- **C3** (amended): whenever the mathematical offset value lies within
the `i8` range `[-128, 127]`, the pitch distance (mod 12, pitches being
octave-independent) from the root to the relative note is exactly the
degree's ideal semitone distance plus the explicit offset (mod 12).
(Without the range restriction the claim fails by `i8` overflow: wrapping
shifts the result by a multiple of 256, which is not a multiple of 12.) -/
theorem C3_pitch_distance :
    ∀ (r : Note) (c : ChordComponent),
      -128 ≤ r.offset + c.2 + ((c.1.to_relative_difference : Int)
          - (r.root.difference (r.get_relative c).root : Int)) →
      r.offset + c.2 + ((c.1.to_relative_difference : Int)
          - (r.root.difference (r.get_relative c).root : Int)) ≤ 127 →
      (pitchValue (r.get_relative c) - pitchValue r) % 12
        = ((c.1.to_relative_difference : Int) + c.2) % 12 := by
  intro r c h1 h2
  have hoff := get_relative_offset_exact r c h1 h2
  have hcong := offsets_sub_emod r.root (r.get_relative c).root
  unfold pitchValue
  rw [hoff]
  omega

/-- Witness for C3: the amended distance property applied at `Note(A,0)`
with component `(N5, 0)`. -/
theorem C3_pitch_distance_witness :
    (pitchValue ((Note.new NoteClass.A 0).get_relative (PitchClass.N5, 0))
      - pitchValue (Note.new NoteClass.A 0)) % 12
    = ((PitchClass.N5.to_relative_difference : Int) + 0) % 12 :=
  C3_pitch_distance (Note.new NoteClass.A 0) (PitchClass.N5, 0)
    (by decide) (by decide)

/-- Counterexample to C3 as stated: at root `Note(A, 127)` and component
`(N1, 127)` the distance mod 12 is 3 (the wrapped offset is `-2`), while
`ideal + explicit_offset = 127 ≡ 7 (mod 12)`. -/
theorem C3_overflow_counterexample :
    ¬ ((pitchValue ((Note.new NoteClass.A 127).get_relative
            (PitchClass.N1, 127))
        - pitchValue (Note.new NoteClass.A 127)) % 12
      = ((PitchClass.N1.to_relative_difference : Int) + 127) % 12) := by
  decide

/-!
## Claim C7: properties of `NoteClass::difference`
-/

/-- **C7** (confirmed): `difference` is (trivially non-negative, being a
`Nat` as the source's is a `usize`, and) strictly less than 12, vanishes on
equal arguments, equals the claim's table formula
`(offset_table[y] + 12 - offset_table[x]) mod 12` with the fixed table
`[A:0, B:2, C:3, D:5, E:7, F:8, G:10]`, and `difference(A, B) = 2`. -/
theorem C7_difference_properties :
    (∀ x y : NoteClass,
        x.difference y < 12 ∧
        x.difference y
          = (([0, 2, 3, 5, 7, 8, 10] : List Nat).getD y.to_int 0 + 12
             - ([0, 2, 3, 5, 7, 8, 10] : List Nat).getD x.to_int 0) % 12)
    ∧ (∀ x : NoteClass, x.difference x = 0)
    ∧ NoteClass.A.difference NoteClass.B = 2 := by
  refine ⟨fun x y => ?_, fun x => ?_, by decide⟩
  · cases x <;> cases y <;> exact ⟨by decide, by decide⟩
  · cases x <;> decide

/-!
## Claim C9: the internal absence checks are unreachable
-/

/-- **C9** (confirmed): the value passed to `NoteClass::from_int` inside
`Note::get_relative` is a remainder modulo `NOTE_CLASS_COUNT`, hence less
than 7, and `from_int` returns `Some` on it; and for every index below
`PITCH_CLASS_COUNT` (the loop bound of `NoteIterator::next`),
`PitchClass::from_int` returns `Some`.  The `unwrap` at the two call sites
therefore never fails. -/
theorem C9_internal_unwraps_safe :
    (∀ (r : Note) (c : ChordComponent),
        (r.root.to_int + c.1.to_int) % NOTE_CLASS_COUNT < NOTE_CLASS_COUNT ∧
        (NoteClass.from_int
            ((r.root.to_int + c.1.to_int) % NOTE_CLASS_COUNT)).isSome = true)
    ∧ (∀ i : Nat, i < PITCH_CLASS_COUNT →
        (PitchClass.from_int i).isSome = true) := by
  refine ⟨fun r c => ?_, fun i hi => pitchClass_from_int_isSome hi⟩
  have h : (r.root.to_int + c.1.to_int) % NOTE_CLASS_COUNT
      < NOTE_CLASS_COUNT := Nat.mod_lt _ (by decide)
  exact ⟨h, noteClass_from_int_isSome h⟩

/-- Witness for C9: the `PitchClass::from_int` half applied at index 9. -/
theorem C9_internal_unwraps_safe_witness :
    (PitchClass.from_int 9).isSome = true :=
  C9_internal_unwraps_safe.2 9 (by decide)

/-!
## Claim C10: `get_relative` offset arithmetic in `i8`
-/

/-- **C10** (confirmed): `Note::get_relative` is a total function of its
inputs (it is a plain Lean function of the root note, degree and explicit
offset).  Its returned offset is always the `i8`-wrapped (mod `2^8`) value
of `root.offset + explicit_offset + (ideal - diatonic_gap)`, and whenever
that mathematical value lies within `[-128, 127]` it is returned exactly. -/
theorem C10_offset_arithmetic :
    ∀ (r : Note) (c : ChordComponent),
      (r.get_relative c).offset
        = i8wrap (r.offset + c.2
            + ((c.1.to_relative_difference : Int)
               - (r.root.difference (r.get_relative c).root : Int)))
      ∧ (-128 ≤ r.offset + c.2 + ((c.1.to_relative_difference : Int)
            - (r.root.difference (r.get_relative c).root : Int)) →
         r.offset + c.2 + ((c.1.to_relative_difference : Int)
            - (r.root.difference (r.get_relative c).root : Int)) ≤ 127 →
         (r.get_relative c).offset
           = r.offset + c.2 + ((c.1.to_relative_difference : Int)
               - (r.root.difference (r.get_relative c).root : Int))) := by
  intro r c
  exact ⟨get_relative_offset r c,
    fun h1 h2 => get_relative_offset_exact r c h1 h2⟩

/-- Witness for C10: the exact-value half applied at `Note(F,-1)` with
component `(N2, -2)`. -/
theorem C10_offset_arithmetic_witness :
    ((Note.new NoteClass.F (-1)).get_relative (PitchClass.N2, -2)).offset
      = (Note.new NoteClass.F (-1)).offset + (-2)
        + ((PitchClass.N2.to_relative_difference : Int)
           - ((Note.new NoteClass.F (-1)).root.difference
               ((Note.new NoteClass.F (-1)).get_relative
                   (PitchClass.N2, -2)).root : Int)) :=
  (C10_offset_arithmetic (Note.new NoteClass.F (-1)) (PitchClass.N2, -2)).2
    (by decide) (by decide)

/-!
## Claims C5 / C6: `ChordStructure` invariants and merge bias
-/

lemma insert_insert_same (s : ChordStructure) (p : PitchClass) (o1 o2 : Int) :
    (s.insert (p, o1)).insert (p, o2) = s.insert (p, o2) := by
  ext i
  simp only [ChordStructure.insert]
  by_cases h : (i : Nat) = p.index <;> simp [h]

lemma insert_preserves_isSome (s : ChordStructure) (c : ChordComponent)
    (i : Fin PITCH_CLASS_COUNT) (h : (s.slots i).isSome = true) :
    ((s.insert c).slots i).isSome = true := by
  simp only [ChordStructure.insert]
  by_cases hc : (i : Nat) = c.1.index <;> simp [hc, h]

/-- Counterexample to C5 as stated: `ChordStructure::from_component` is
also a fresh construction (same source lines as `new`), and
`from_component((N3, 0))` leaves the unison slot absent. -/
theorem C5_from_component_counterexample :
    (ChordStructure.from_component (PitchClass.N3, 0)).slots
      ⟨0, by decide⟩ = none := by
  decide

/-- **C5** (amended): `ChordStructure::new()` has the unison slot present
with offset 0 and the nine other slots absent; and no operation
(`insert`, `insert_many`, `merge`) ever makes a present slot absent.
(The unamended claim also asserted that *every* freshly constructed
structure has the unison slot present, which `from_component` violates;
see the counterexample.) -/
theorem C5_structure_invariants :
    (∀ i : Fin PITCH_CLASS_COUNT,
        ChordStructure.new.slots i = if (i : Nat) = 0 then some 0 else none)
    ∧ (∀ (s : ChordStructure) (c : ChordComponent)
        (i : Fin PITCH_CLASS_COUNT),
        (s.slots i).isSome = true → ((s.insert c).slots i).isSome = true)
    ∧ (∀ (s : ChordStructure) (l : List ChordComponent)
        (i : Fin PITCH_CLASS_COUNT),
        (s.slots i).isSome = true → ((s.insert_many l).slots i).isSome = true)
    ∧ (∀ (s t : ChordStructure) (i : Fin PITCH_CLASS_COUNT),
        (s.slots i).isSome = true → ((s.merge t).slots i).isSome = true) := by
  refine ⟨fun i => rfl, insert_preserves_isSome, ?_, ?_⟩
  · intro s l
    induction l generalizing s with
    | nil => intro i h; exact h
    | cons c l ih =>
        intro i h
        exact ih (s.insert c) i (insert_preserves_isSome s c i h)
  · intro s t i h
    simp only [ChordStructure.merge]
    by_cases ht : (t.slots i).isSome = true <;> simp [ht, h]

/-- Witness for C5: the `insert` preservation half applied to the unison
slot of a fresh structure. -/
theorem C5_structure_invariants_witness :
    ((ChordStructure.new.insert (PitchClass.N3, 1)).slots
      ⟨0, by decide⟩).isSome = true :=
  C5_structure_invariants.2.1 ChordStructure.new (PitchClass.N3, 1)
    ⟨0, by decide⟩ (by decide)

/-- **C6** (confirmed): `merge` is right-biased slotwise; merging with an
all-absent structure is the identity; inserting the same degree twice
(directly or within one `insert_many` call) keeps only the last offset. -/
theorem C6_merge_right_biased :
    (∀ (a b : ChordStructure) (i : Fin PITCH_CLASS_COUNT),
        (a.merge b).slots i
          = if (b.slots i).isSome then b.slots i else a.slots i)
    ∧ (∀ a : ChordStructure, a.merge ⟨fun _ => none⟩ = a)
    ∧ (∀ (s : ChordStructure) (p : PitchClass) (o1 o2 : Int),
        (s.insert (p, o1)).insert (p, o2) = s.insert (p, o2))
    ∧ (∀ (s : ChordStructure) (p : PitchClass) (o1 o2 : Int),
        s.insert_many [(p, o1), (p, o2)] = s.insert (p, o2)) := by
  refine ⟨fun a b i => rfl, fun a => ?_, insert_insert_same,
    fun s p o1 o2 => ?_⟩
  · ext i
    simp [ChordStructure.merge]
  · show (s.insert (p, o1)).insert (p, o2) = s.insert (p, o2)
    exact insert_insert_same s p o1 o2

/-!
## Iterator lemmas
-/

lemma scanStructure_zero (c : Chord) (i : Nat) :
    scanStructure c i 0 = (none, .exhausted) := rfl

lemma scanStructure_succ (c : Chord) (i fuel : Nat) :
    scanStructure c i (fuel + 1)
      = if h : i < PITCH_CLASS_COUNT then
          match c.struct.slots ⟨i, h⟩ with
          | some offset =>
              (some (c.root.get_relative
                  ((PitchClass.from_int i).get!, offset)),
               .struct (i + 1))
          | none => scanStructure c (i + 1) fuel
        else (none, .exhausted) := rfl

lemma drainChord_zero (c : Chord) (s : NoteIteratorState) :
    drainChord c 0 s = ([], s) := rfl

lemma drainChord_succ (c : Chord) (fuel : Nat) (s : NoteIteratorState) :
    drainChord c (fuel + 1) s
      = match iterStep c s with
        | (some note, s') =>
            let rest := drainChord c fuel s'
            (note :: rest.1, rest.2)
        | (none, s') => ([], s') := rfl

lemma drainPoly_zero (p : PolyChord) (s : NoteIteratorState × NoteIteratorState) :
    drainPoly p 0 s = [] := rfl

lemma drainPoly_succ (p : PolyChord) (fuel : Nat)
    (s : NoteIteratorState × NoteIteratorState) :
    drainPoly p (fuel + 1) s
      = match polyStep p s with
        | (some note, s') => note :: drainPoly p fuel s'
        | (none, _) => [] := rfl

lemma range'_cons (i k : Nat) :
    List.range' i (k + 1) = i :: List.range' (i + 1) k := rfl

/-- Whenever a scan returns no note, the new state is `Exhausted`. -/
lemma scanStructure_none_state (c : Chord) :
    ∀ (fuel i : Nat) (s' : NoteIteratorState),
      scanStructure c i fuel = (none, s') → s' = .exhausted := by
  intro fuel
  induction fuel with
  | zero =>
      intro i s' h
      rw [scanStructure_zero] at h
      injection h with h1 h2
      exact h2.symm
  | succ fuel ih =>
      intro i s' h
      rw [scanStructure_succ] at h
      by_cases hi : i < PITCH_CLASS_COUNT
      · rw [dif_pos hi] at h
        cases hslot : c.struct.slots ⟨i, hi⟩ with
        | some off => simp [hslot] at h
        | none =>
            simp only [hslot] at h
            exact ih (i + 1) s' h
      · rw [dif_neg hi] at h
        injection h with h1 h2
        exact h2.symm

/-- Whenever `next` returns no note, the new state is `Exhausted`. -/
lemma iterStep_none_state (c : Chord) (s s' : NoteIteratorState)
    (h : iterStep c s = (none, s')) : s' = .exhausted := by
  cases s with
  | slash =>
      simp only [iterStep] at h
      cases hs : c.slash_root with
      | some note => simp [hs] at h
      | none =>
          rw [hs] at h
          exact scanStructure_none_state c _ _ _ h
  | struct i =>
      simp only [iterStep] at h
      exact scanStructure_none_state c _ _ _ h
  | exhausted =>
      simp only [iterStep] at h
      injection h with h1 h2
      exact h2.symm

/-- Draining from state `Structure(i)` yields exactly the present slots at
ordinals `i, i+1, ..., 9` (in ascending order), resolved via
`get_relative`, and ends exhausted. -/
lemma drainChord_struct (c : Chord) :
    ∀ (k i f : Nat), i + k = PITCH_CLASS_COUNT → k + 1 ≤ f →
      drainChord c f (.struct i)
        = ((List.range' i k).filterMap (slotNote c), .exhausted) := by
  intro k
  induction k with
  | zero =>
      intro i f hik hf
      obtain ⟨f', rfl⟩ : ∃ f', f = f' + 1 := ⟨f - 1, by omega⟩
      have hsub : PITCH_CLASS_COUNT - i = 0 := by omega
      rw [drainChord_succ]
      simp only [iterStep, hsub, scanStructure_zero]
      simp
  | succ k ih =>
      intro i f hik hf
      have hi : i < PITCH_CLASS_COUNT := by omega
      have hsub : PITCH_CLASS_COUNT - i = k + 1 := by omega
      obtain ⟨f', rfl⟩ : ∃ f', f = f' + 1 := ⟨f - 1, by omega⟩
      rw [drainChord_succ]
      simp only [iterStep, hsub, scanStructure_succ, dif_pos hi]
      cases hslot : c.struct.slots ⟨i, hi⟩ with
      | some off =>
          have hnote : slotNote c i
              = some (c.root.get_relative ((PitchClass.from_int i).get!, off)) := by
            simp [slotNote, hi, hslot]
          simp only [hslot]
          rw [ih (i + 1) f' (by omega) (by omega)]
          rw [range'_cons, List.filterMap_cons, hnote]
      | none =>
          have hnone : slotNote c i = none := by simp [slotNote, hi, hslot]
          have hsub2 : PITCH_CLASS_COUNT - (i + 1) = k := by omega
          have hstep : drainChord c (f' + 1) (.struct (i + 1))
              = match scanStructure c (i + 1) k with
                | (some note, s') =>
                    let rest := drainChord c f' s'
                    (note :: rest.1, rest.2)
                | (none, s') => ([], s') := by
            rw [drainChord_succ]
            simp only [iterStep, hsub2]
          simp only [hslot]
          rw [← hstep, ih (i + 1) (f' + 1) (by omega) (by omega)]
          rw [range'_cons, List.filterMap_cons, hnone]

/-- Fully draining a chord's iterator from the initial state yields the
slash note (if present) followed by the resolved present slots in
ascending ordinal order, and ends exhausted. -/
lemma drainChord_slash_eq (c : Chord) :
    drainChord c 12 .slash
      = (c.slash_root.toList
          ++ (List.range PITCH_CLASS_COUNT).filterMap (slotNote c),
         .exhausted) := by
  have hrange : List.range PITCH_CLASS_COUNT
      = List.range' 0 PITCH_CLASS_COUNT := List.range_eq_range' _
  cases hs : c.slash_root with
  | some note =>
      rw [show (12 : Nat) = 11 + 1 from rfl, drainChord_succ]
      simp only [iterStep, hs]
      rw [drainChord_struct c PITCH_CLASS_COUNT 0 11 rfl (by decide)]
      simp [hrange]
  | none =>
      rw [show (12 : Nat) = 11 + 1 from rfl, drainChord_succ]
      simp only [iterStep, hs]
      have hstep : drainChord c (11 + 1) (.struct 0)
          = match scanStructure c 0 PITCH_CLASS_COUNT with
            | (some note, s') =>
                let rest := drainChord c 11 s'
                (note :: rest.1, rest.2)
            | (none, s') => ([], s') := by
        rw [drainChord_succ]
        simp only [iterStep, Nat.sub_zero]
      rw [← hstep, drainChord_struct c PITCH_CLASS_COUNT 0 (11 + 1) rfl (by decide)]
      simp [hrange]

/-!
## Claim C2: the chord note sequence
-/

/-- **C2** (confirmed): for every chord, the collected iterator sequence is
the slash note (if present) followed, for each ordinal 0..9 in ascending
order whose slot is present with offset `o`, by
`root.get_relative((degree, o))`; absent slots are skipped, the sequence
has at most 1 + 10 notes, and the concrete slash-chord example yields
exactly `[C#, A, C#, E]`. -/
theorem C2_iter_sequence :
    (∀ c : Chord,
        c.notes = c.slash_root.toList
            ++ (List.range PITCH_CLASS_COUNT).filterMap (slotNote c)
          ∧ c.notes.length ≤ 1 + PITCH_CLASS_COUNT)
    ∧ (Chord.new_slash (Note.new .C 1) (Note.new .A 0)
        (ChordStructure.new.insert_many [(.N3, 0), (.N5, 0)])).notes
      = [Note.new .C 1, Note.new .A 0, Note.new .C 1, Note.new .E 0] := by
  refine ⟨fun c => ?_, by decide⟩
  have heq : c.notes = c.slash_root.toList
      ++ (List.range PITCH_CLASS_COUNT).filterMap (slotNote c) := by
    unfold Chord.notes
    rw [drainChord_slash_eq]
  refine ⟨heq, ?_⟩
  rw [heq]
  have h1 : c.slash_root.toList.length ≤ 1 := by
    cases c.slash_root <;> simp
  have h2 : ((List.range PITCH_CLASS_COUNT).filterMap (slotNote c)).length
      ≤ PITCH_CLASS_COUNT := by
    calc ((List.range PITCH_CLASS_COUNT).filterMap (slotNote c)).length
        ≤ (List.range PITCH_CLASS_COUNT).length :=
          List.length_filterMap_le _ _
      _ = PITCH_CLASS_COUNT := List.length_range _
  rw [List.length_append]
  omega

/-!
## Claim C4: the claimed lowest-to-highest pitch order
-/

/-- **C4** (code bug): the doc comment of `Chord::iter` promises notes
"from lowest pitch to highest, in order", but the iterator yields notes in
fixed structural-slot order.  On the chord `G` with structure
`{unison: 0, 2nd: 0}` the yielded sequence is `[G, A]`, whose pitches are
`10` then `0` — strictly decreasing.  The pitch used is the one the claim
defines: the letter's table value plus the accidental offset. -/
theorem C4_pitch_order_violation :
    (Chord.new (Note.new NoteClass.G 0)
        (ChordStructure.new.insert (PitchClass.N2, 0))).notes
      = [Note.new NoteClass.G 0, Note.new NoteClass.A 0]
    ∧ pitchValue (Note.new NoteClass.A 0)
        < pitchValue (Note.new NoteClass.G 0) := by
  decide

/-!
## Claim C8: polychord concatenation
-/

/-- Once the lower half is exhausted, the chained iterator replays exactly
the upper chord's drain. -/
lemma drainPoly_upper (p : PolyChord) :
    ∀ (f2 : Nat) (s2 : NoteIteratorState) (l2 : List Note) (f : Nat),
      drainChord p.upper f2 s2 = (l2, .exhausted) → f2 ≤ f →
      drainPoly p f (.exhausted, s2) = l2 := by
  intro f2
  induction f2 with
  | zero =>
      intro s2 l2 f h hf
      rw [drainChord_zero] at h
      injection h with h1 h2
      subst h2
      rw [← h1]
      cases f with
      | zero => rfl
      | succ f => rfl
  | succ n ih =>
      intro s2 l2 f h hf
      obtain ⟨f', rfl⟩ : ∃ f', f = f' + 1 := ⟨f - 1, by omega⟩
      rw [drainChord_succ] at h
      rcases hstep : iterStep p.upper s2 with ⟨o, s2'⟩
      rw [hstep] at h
      cases o with
      | some note =>
          rcases hrest : drainChord p.upper n s2' with ⟨t, st⟩
          change (note :: (drainChord p.upper n s2').1,
              (drainChord p.upper n s2').2)
            = (l2, NoteIteratorState.exhausted) at h
          rw [hrest] at h
          change (note :: t, st) = (l2, NoteIteratorState.exhausted) at h
          injection h with h1 h2
          subst h2
          have hps : polyStep p (.exhausted, s2)
              = (some note, (.exhausted, s2')) := by
            show (match iterStep p.upper s2 with
                | (some note, s2') =>
                    (some note, (NoteIteratorState.exhausted, s2'))
                | (none, s2') =>
                    (none, (NoteIteratorState.exhausted, s2')))
              = (some note, (NoteIteratorState.exhausted, s2'))
            simp only [hstep]
          rw [drainPoly_succ, hps]
          show note :: drainPoly p f' (.exhausted, s2') = l2
          rw [← h1, ih s2' t f' hrest (by omega)]
      | none =>
          change ([], s2') = (l2, NoteIteratorState.exhausted) at h
          injection h with h1 h2
          subst h2
          have hps : polyStep p (.exhausted, s2)
              = (none, (.exhausted, .exhausted)) := by
            show (match iterStep p.upper s2 with
                | (some note, s2') =>
                    (some note, (NoteIteratorState.exhausted, s2'))
                | (none, s2') =>
                    (none, (NoteIteratorState.exhausted, s2')))
              = (none, (NoteIteratorState.exhausted, NoteIteratorState.exhausted))
            simp only [hstep]
          rw [drainPoly_succ, hps, ← h1]

/-- Polling an exhausted lower iterator is indistinguishable from polling
its final state: chaining only ever observes the `None` answers. -/
lemma polyStep_lower_none (p : PolyChord) (s1 s2 : NoteIteratorState)
    (h : iterStep p.lower s1 = (none, .exhausted)) :
    polyStep p (s1, s2) = polyStep p (.exhausted, s2) := by
  rcases hup : iterStep p.upper s2 with ⟨o2, s2'⟩
  cases o2 <;>
    · show (match iterStep p.lower s1 with
          | (some note, s1') => (some note, (s1', s2))
          | (none, s1') =>
              match iterStep p.upper s2 with
              | (some note, s2') => (some note, (s1', s2'))
              | (none, s2') => (none, (s1', s2')))
        = (match iterStep p.upper s2 with
           | (some note, s2') =>
               (some note, (NoteIteratorState.exhausted, s2'))
           | (none, s2') => (none, (NoteIteratorState.exhausted, s2')))
      simp only [h, hup]

/-- The chained polychord iterator yields the lower chord's drain followed
by the upper chord's drain. -/
lemma drainPoly_lower (p : PolyChord) :
    ∀ (f1 : Nat) (s1 : NoteIteratorState) (l1 : List Note)
      (f2 : Nat) (l2 : List Note) (f : Nat),
      drainChord p.lower f1 s1 = (l1, .exhausted) →
      drainChord p.upper f2 .slash = (l2, .exhausted) →
      f1 + f2 ≤ f →
      drainPoly p f (s1, .slash) = l1 ++ l2 := by
  intro f1
  induction f1 with
  | zero =>
      intro s1 l1 f2 l2 f h1 h2 hf
      rw [drainChord_zero] at h1
      injection h1 with ha hb
      subst hb
      rw [← ha, List.nil_append]
      exact drainPoly_upper p f2 .slash l2 f h2 (by omega)
  | succ n ih =>
      intro s1 l1 f2 l2 f h1 h2 hf
      obtain ⟨f', rfl⟩ : ∃ f', f = f' + 1 := ⟨f - 1, by omega⟩
      rw [drainChord_succ] at h1
      rcases hstep : iterStep p.lower s1 with ⟨o, s1'⟩
      rw [hstep] at h1
      cases o with
      | some note =>
          rcases hrest : drainChord p.lower n s1' with ⟨t, st⟩
          change (note :: (drainChord p.lower n s1').1,
              (drainChord p.lower n s1').2)
            = (l1, NoteIteratorState.exhausted) at h1
          rw [hrest] at h1
          change (note :: t, st) = (l1, NoteIteratorState.exhausted) at h1
          injection h1 with ha hb
          subst hb
          have hps : polyStep p (s1, .slash)
              = (some note, (s1', .slash)) := by
            show (match iterStep p.lower s1 with
                | (some note, s1') =>
                    (some note, (s1', NoteIteratorState.slash))
                | (none, s1') =>
                    match iterStep p.upper NoteIteratorState.slash with
                    | (some note, s2') => (some note, (s1', s2'))
                    | (none, s2') => (none, (s1', s2')))
              = (some note, (s1', NoteIteratorState.slash))
            simp only [hstep]
          rw [drainPoly_succ, hps]
          show note :: drainPoly p f' (s1', .slash) = l1 ++ l2
          rw [← ha, ih s1' t f2 l2 f' hrest h2 (by omega)]
          rfl
      | none =>
          change ([], s1') = (l1, NoteIteratorState.exhausted) at h1
          injection h1 with ha hb
          subst hb
          rw [← ha, List.nil_append]
          have hsw : drainPoly p (f' + 1) (s1, .slash)
              = drainPoly p (f' + 1) (.exhausted, .slash) := by
            rw [drainPoly_succ, drainPoly_succ,
              polyStep_lower_none p s1 .slash hstep]
          rw [hsw]
          exact drainPoly_upper p f2 .slash l2 (f' + 1) h2 (by omega)

/-- **C8** (confirmed): the polychord sequence is the lower chord's full
sequence immediately followed by the upper chord's full sequence, with no
interleaving or merging; and the concrete `F#(#5)|Bm` example yields
`[B, D, F#, F#, A#, C##]`. -/
theorem C8_polychord_concat :
    (∀ p : PolyChord, p.notes = p.lower.notes ++ p.upper.notes)
    ∧ (PolyChord.new
        (Chord.new (Note.new .F 1)
          (ChordStructure.new.insert_many [(.N3, 0), (.N5, 1)]))
        (Chord.new (Note.new .B 0)
          (ChordStructure.new.insert_many [(.N3, -1), (.N5, 0)]))).notes
      = [Note.new .B 0, Note.new .D 0, Note.new .F 1,
         Note.new .F 1, Note.new .A 1, Note.new .C 2] := by
  refine ⟨fun p => ?_, by decide⟩
  have hl : drainChord p.lower 12 .slash = (p.lower.notes, .exhausted) := by
    rw [drainChord_slash_eq, Chord.notes, drainChord_slash_eq]
  have hu : drainChord p.upper 12 .slash = (p.upper.notes, .exhausted) := by
    rw [drainChord_slash_eq, Chord.notes, drainChord_slash_eq]
  exact drainPoly_lower p 12 .slash p.lower.notes 12 p.upper.notes 24
    hl hu (by omega)
